import Mathlib

/-!  A verification development for the gor capture/replay core.  It gives a
shallow embedding of the pcap capture codec, the capture outbox, the
pending-request table, the HTTP output worker pool, the differential
analyzer and the queue statistics, and proves theorems checking the
documented properties.  Bytes are modelled as natural numbers; Go machine
integers become Nat/Int (no operation considered here wraps a 64-bit
value); Go code that can panic or block returns Option.  -/

/-- A captured message (struct CapturedMsg): flow id, timing in nanoseconds,
kind byte (49 = ASCII '1' = request, 50 = ASCII '2' = response) and the raw
HTTP payload bytes. -/
structure CapturedMsg where
  id : Nat
  timing : Int
  kind : Nat
  payload : List Nat
  deriving DecidableEq

/-- Decimal digits of a natural number, most significant first: the digit
sequence strconv.FormatUint prints. -/
def decRepr (n : Nat) : List Nat :=
  if n = 0 then [0] else (Nat.digits 10 n).reverse

/-- ASCII bytes of the decimal representation (each digit plus 48). -/
def decBytes (n : Nat) : List Nat :=
  (decRepr n).map (fun d => d + 48)

/-- ASCII bytes strconv.FormatInt prints: a minus sign (45) for negative
values, then the decimal digits of the absolute value. -/
def intBytes (t : Int) : List Nat :=
  if t < 0 then 45 :: decBytes (-t).toNat else decBytes t.toNat

/-- Decimal value of an ASCII digit string: fold 10 * acc + (byte - 48). -/
def parseDecBytes (l : List Nat) : Nat :=
  l.foldl (fun a d => 10 * a + (d - 48)) 0

/-- Signed decimal value of an ASCII string: a leading minus sign (45)
negates the value of the remaining digits. -/
def parseIntBytes (l : List Nat) : Int :=
  match l with
  | [] => 0
  | c :: rest => if c = 45 then -(parseDecBytes rest : Int) else (parseDecBytes l : Int)

/-- Split a byte list at the first occurrence of the byte b: returns the
part strictly before the separator and the part strictly after it, or none
when b does not occur. -/
def splitAtByte (b : Nat) : List Nat → Option (List Nat × List Nat)
  | [] => none
  | x :: xs =>
    if x = b then some ([], xs)
    else (splitAtByte b xs).map (fun p => (x :: p.1, p.2))

/-- The serialized form of a captured message, as written by PcapInput.Read:
kind byte, SP, decimal id, SP, decimal timing, LF, payload bytes. -/
def msgEncode (m : CapturedMsg) : List Nat :=
  m.kind :: 32 :: (decBytes m.id ++ 32 :: (intBytes m.timing ++ 10 :: m.payload))

/-- Modelled from the spec: the wire-format parser (the inverse codec; the
repository contains only the serializer).  Per the wire format, the first
byte is the kind, then SP, the decimal id up to the next SP, the decimal
timing up to the first LF, and everything after that LF is the payload. -/
def msgDecode (data : List Nat) : Option CapturedMsg :=
  match data with
  | k :: s :: rest =>
    if s = 32 then
      match splitAtByte 32 rest with
      | some (idB, rest1) =>
        match splitAtByte 10 rest1 with
        | some (tB, payload) => some ⟨parseDecBytes idB, parseIntBytes tB, k, payload⟩
        | none => none
      | none => none
    else none
  | _ => none

lemma foldl_dec_eq (l : List Nat) : ∀ a : Nat,
    l.foldl (fun a d => 10 * a + d) a = a * 10 ^ l.length + Nat.ofDigits 10 l.reverse := by
  induction l with
  | nil => intro a; simp [Nat.ofDigits]
  | cons d t ih =>
    intro a
    simp only [List.foldl_cons, List.reverse_cons, List.length_cons]
    rw [ih, Nat.ofDigits_append, List.length_reverse]
    simp [Nat.ofDigits]
    ring

lemma parseDec_decRepr (n : Nat) : (decRepr n).foldl (fun a d => 10 * a + d) 0 = n := by
  unfold decRepr
  split
  · simp only [List.foldl_cons, List.foldl_nil]
    omega
  · rw [foldl_dec_eq]
    simp [Nat.ofDigits_digits]

lemma parseDecBytes_decBytes (n : Nat) : parseDecBytes (decBytes n) = n := by
  unfold parseDecBytes decBytes
  rw [List.foldl_map]
  simpa using parseDec_decRepr n

lemma decRepr_ne_nil (n : Nat) : decRepr n ≠ [] := by
  unfold decRepr
  split
  · simp
  · simpa [Nat.digits_ne_nil_iff_ne_zero] using ‹¬ n = 0›

lemma decBytes_ne_nil (n : Nat) : decBytes n ≠ [] := by
  unfold decBytes
  simp [decRepr_ne_nil]

lemma decBytes_ge (n : Nat) : ∀ b ∈ decBytes n, 48 ≤ b := by
  intro b hb
  unfold decBytes at hb
  obtain ⟨d, _, rfl⟩ := List.mem_map.1 hb
  omega

lemma intBytes_ge (t : Int) : ∀ b ∈ intBytes t, 45 ≤ b := by
  intro b hb
  unfold intBytes at hb
  split at hb
  · rcases List.mem_cons.1 hb with h | h
    · omega
    · have := decBytes_ge _ b h; omega
  · have := decBytes_ge _ b hb; omega

lemma parseIntBytes_cons (c : Nat) (rest : List Nat) :
    parseIntBytes (c :: rest) =
      if c = 45 then -(parseDecBytes rest : Int) else (parseDecBytes (c :: rest) : Int) := rfl

lemma parseIntBytes_intBytes (t : Int) : parseIntBytes (intBytes t) = t := by
  unfold intBytes
  split
  · rw [parseIntBytes_cons, if_pos rfl, parseDecBytes_decBytes]
    omega
  · obtain ⟨b, bs, hcons⟩ : ∃ b bs, decBytes t.toNat = b :: bs := by
      cases h : decBytes t.toNat with
      | nil => exact absurd h (decBytes_ne_nil _)
      | cons b bs => exact ⟨b, bs, rfl⟩
    have hb : 48 ≤ b := decBytes_ge _ b (by rw [hcons]; exact List.mem_cons_self b bs)
    rw [hcons, parseIntBytes_cons, if_neg (by omega), ← hcons, parseDecBytes_decBytes]
    omega

lemma splitAtByte_append (b : Nat) (l r : List Nat) (h : ∀ x ∈ l, x ≠ b) :
    splitAtByte b (l ++ b :: r) = some (l, r) := by
  induction l with
  | nil => simp [splitAtByte]
  | cons x xs ih =>
    have hx : x ≠ b := h x (List.mem_cons_self x xs)
    simp [splitAtByte, hx, ih (fun y hy => h y (List.mem_cons_of_mem _ hy))]

/-- C7: serializing any captured message (any kind, id, timing, arbitrary
payload bytes, including payloads containing LF and SP) with the capture
codec and parsing the serialized form per the wire format yields the same
kind, id, timing, and payload bytes. -/
theorem capture_codec_roundtrip (m : CapturedMsg) : msgDecode (msgEncode m) = some m := by
  have h1 : splitAtByte 32 (decBytes m.id ++ 32 :: (intBytes m.timing ++ 10 :: m.payload)) =
      some (decBytes m.id, intBytes m.timing ++ 10 :: m.payload) :=
    splitAtByte_append _ _ _ (fun x hx => by have := decBytes_ge m.id x hx; omega)
  have h2 : splitAtByte 10 (intBytes m.timing ++ 10 :: m.payload) =
      some (intBytes m.timing, m.payload) :=
    splitAtByte_append _ _ _ (fun x hx => by have := intBytes_ge m.timing x hx; omega)
  simp [msgEncode, msgDecode, h1, h2, parseDecBytes_decBytes, parseIntBytes_intBytes]

/-- Go slice element assignment data[i] = v: out of range (none) when
i ≥ len(data), otherwise the element is replaced in place. -/
def goWrite (buf : List Nat) (i v : Nat) : Option (List Nat) :=
  if i < buf.length then some (buf.take i ++ v :: buf.drop (i + 1)) else none

/-- Go copy(data[i:], src): copies min(len(src), len(data)-i) bytes starting
at offset i; the slice expression itself is out of range (none) only when
i > len(data). -/
def goCopy (buf : List Nat) (i : Nat) (src : List Nat) : Option (List Nat) :=
  if i ≤ buf.length then
    some (buf.take i ++ src.take (buf.length - i) ++ buf.drop (i + src.length))
  else none

/-- Header length computed by PcapInput.Read:
1 (kind) + 1 (SP) + len(idBytes) + 1 (SP) + len(timingBytes). -/
def headerLen (m : CapturedMsg) : Nat :=
  1 + 1 + (decBytes m.id).length + 1 + (intBytes m.timing).length

/-- Total record length reported by PcapInput.Read: header + LF + payload. -/
def totalLen (m : CapturedMsg) : Nat := headerLen m + 1 + m.payload.length

/-- PcapInput.Read serializing one captured message into the caller-supplied
buffer, with Go semantics for the fixed-offset writes (panic out of range)
and the copies (silent truncation).  Returns the written buffer and the
returned length, which is always the full record length. -/
def pcapRead (m : CapturedMsg) (data : List Nat) : Option (List Nat × Nat) :=
  (goWrite data 0 m.kind).bind fun d1 =>
  (goWrite d1 1 32).bind fun d2 =>
  (goCopy d2 2 (decBytes m.id)).bind fun d3 =>
  (goWrite d3 (2 + (decBytes m.id).length) 32).bind fun d4 =>
  (goCopy d4 (2 + (decBytes m.id).length + 1) (intBytes m.timing)).bind fun d5 =>
  (goWrite d5 (headerLen m) 10).bind fun d6 =>
  (goCopy d6 (headerLen m + 1) m.payload).map fun d7 => (d7, totalLen m)

lemma goWrite_at (pre suf : List Nat) (v i : Nat) (hi : i = pre.length) (h : suf ≠ []) :
    goWrite (pre ++ suf) i v = some (pre ++ v :: suf.tail) := by
  subst hi
  have hpos : 0 < suf.length := List.length_pos.2 h
  unfold goWrite
  rw [if_pos (by simp; omega)]
  cases suf with
  | nil => simp at hpos
  | cons c t =>
    rw [List.take_left]
    have h2 : (pre ++ c :: t).drop (pre.length + 1) = t := by
      rw [show pre ++ c :: t = (pre ++ [c]) ++ t by simp, List.drop_left' (by simp)]
    rw [h2]
    simp

lemma goCopy_at (pre suf src : List Nat) (i : Nat) (hi : i = pre.length) :
    goCopy (pre ++ suf) i src = some (pre ++ (src.take suf.length ++ suf.drop src.length)) := by
  subst hi
  unfold goCopy
  rw [if_pos (by simp)]
  rw [List.take_left]
  have h1 : (pre ++ suf).length - pre.length = suf.length := by simp
  have h2 : (pre ++ suf).drop (pre.length + src.length) = suf.drop src.length := by
    rw [← List.drop_drop, List.drop_left]
  rw [h1, h2, List.append_assoc]

lemma goWrite_bound (buf : List Nat) (i v : Nat) (out : List Nat)
    (h : goWrite buf i v = some out) : i < buf.length ∧ out.length = buf.length := by
  unfold goWrite at h
  split at h
  · refine ⟨‹_›, ?_⟩
    injection h with h
    subst h
    simp only [List.length_append, List.length_take, List.length_cons, List.length_drop]
    omega
  · exact absurd h (by simp)

lemma goCopy_bound (buf : List Nat) (i : Nat) (src out : List Nat)
    (h : goCopy buf i src = some out) : i ≤ buf.length ∧ out.length = buf.length := by
  unfold goCopy at h
  split at h
  · refine ⟨‹_›, ?_⟩
    injection h with h
    subst h
    simp only [List.length_append, List.length_take, List.length_drop]
    omega
  · exact absurd h (by simp)

lemma pcapRead_success (m : CapturedMsg) (data : List Nat)
    (h : headerLen m + 1 ≤ data.length) :
    pcapRead m data = some
      (m.kind :: 32 :: (decBytes m.id ++ 32 :: (intBytes m.timing ++ 10 ::
        (m.payload.take (data.length - (headerLen m + 1)) ++ data.drop (totalLen m)))),
       totalLen m) := by
  rcases data with _ | ⟨a, _ | ⟨b, rest⟩⟩
  · simp [headerLen] at h
  · simp [headerLen] at h
  · simp only [List.length_cons, headerLen] at h
    have e1 : goWrite (a :: b :: rest) 0 m.kind = some (m.kind :: b :: rest) := by
      simpa using goWrite_at [] (a :: b :: rest) m.kind 0 rfl (by simp)
    have e2 : goWrite (m.kind :: b :: rest) 1 32 = some (m.kind :: 32 :: rest) := by
      simpa using goWrite_at [m.kind] (b :: rest) 32 1 rfl (by simp)
    have e3 : goCopy (m.kind :: 32 :: rest) 2 (decBytes m.id) =
        some (m.kind :: 32 :: (decBytes m.id ++ rest.drop (decBytes m.id).length)) := by
      have h3 := goCopy_at [m.kind, 32] rest (decBytes m.id) 2 rfl
      rw [List.take_of_length_le (by omega)] at h3
      simpa using h3
    have e4 : goWrite (m.kind :: 32 :: (decBytes m.id ++ rest.drop (decBytes m.id).length))
          (2 + (decBytes m.id).length) 32 =
        some (m.kind :: 32 :: (decBytes m.id ++ 32 ::
          rest.drop ((decBytes m.id).length + 1))) := by
      have h4 := goWrite_at (m.kind :: 32 :: decBytes m.id)
          (rest.drop (decBytes m.id).length) 32 (2 + (decBytes m.id).length)
          (by simp; omega)
          (by intro heq; have := congrArg List.length heq; simp at this; omega)
      rw [List.tail_drop] at h4
      simpa using h4
    have e5 : goCopy (m.kind :: 32 :: (decBytes m.id ++ 32 ::
          rest.drop ((decBytes m.id).length + 1)))
          (2 + (decBytes m.id).length + 1) (intBytes m.timing) =
        some (m.kind :: 32 :: (decBytes m.id ++ 32 :: (intBytes m.timing ++
          rest.drop ((decBytes m.id).length + 1 + (intBytes m.timing).length)))) := by
      have h5 := goCopy_at (m.kind :: 32 :: (decBytes m.id ++ [32]))
          (rest.drop ((decBytes m.id).length + 1)) (intBytes m.timing)
          (2 + (decBytes m.id).length + 1) (by simp; omega)
      rw [List.take_of_length_le (by simp only [List.length_drop]; omega),
        List.drop_drop] at h5
      simpa using h5
    have e6 : goWrite (m.kind :: 32 :: (decBytes m.id ++ 32 :: (intBytes m.timing ++
          rest.drop ((decBytes m.id).length + 1 + (intBytes m.timing).length))))
          (headerLen m) 10 =
        some (m.kind :: 32 :: (decBytes m.id ++ 32 :: (intBytes m.timing ++ 10 ::
          rest.drop ((decBytes m.id).length + 1 + (intBytes m.timing).length + 1)))) := by
      have h6 := goWrite_at (m.kind :: 32 :: (decBytes m.id ++ 32 :: intBytes m.timing))
          (rest.drop ((decBytes m.id).length + 1 + (intBytes m.timing).length)) 10
          (headerLen m) (by simp [headerLen]; omega)
          (by intro heq; have := congrArg List.length heq; simp at this; omega)
      rw [List.tail_drop] at h6
      simpa using h6
    have e7 : goCopy (m.kind :: 32 :: (decBytes m.id ++ 32 :: (intBytes m.timing ++ 10 ::
          rest.drop ((decBytes m.id).length + 1 + (intBytes m.timing).length + 1))))
          (headerLen m + 1) m.payload =
        some (m.kind :: 32 :: (decBytes m.id ++ 32 :: (intBytes m.timing ++ 10 ::
          (m.payload.take (rest.length -
            ((decBytes m.id).length + 1 + (intBytes m.timing).length + 1)) ++
           rest.drop ((decBytes m.id).length + 1 + (intBytes m.timing).length + 1 +
            m.payload.length))))) := by
      have h7 := goCopy_at (m.kind :: 32 :: (decBytes m.id ++ 32 :: (intBytes m.timing ++ [10])))
          (rest.drop ((decBytes m.id).length + 1 + (intBytes m.timing).length + 1)) m.payload
          (headerLen m + 1) (by simp [headerLen]; omega)
      rw [List.drop_drop, List.length_drop] at h7
      simpa using h7
    have g1 : (a :: b :: rest : List Nat).length - (headerLen m + 1) =
        rest.length - ((decBytes m.id).length + 1 + (intBytes m.timing).length + 1) := by
      simp [headerLen]
      omega
    have g2 : (a :: b :: rest : List Nat).drop (totalLen m) =
        rest.drop ((decBytes m.id).length + 1 + (intBytes m.timing).length + 1 +
          m.payload.length) := by
      rw [show totalLen m = ((decBytes m.id).length + 1 + (intBytes m.timing).length + 1 +
          m.payload.length) + 1 + 1 from by simp [totalLen, headerLen]; omega]
      rw [List.drop_succ_cons, List.drop_succ_cons]
    rw [g1, g2]
    unfold pcapRead
    simp only [e1, Option.some_bind, e2, e3, e4, e5, e6, e7, Option.map_some']

lemma pcapRead_some_bound (m : CapturedMsg) (data : List Nat) (out : List Nat × Nat)
    (h : pcapRead m data = some out) :
    headerLen m + 1 ≤ data.length ∧ out.1.length = data.length ∧ out.2 = totalLen m := by
  unfold pcapRead at h
  obtain ⟨d1, h1, h⟩ := Option.bind_eq_some.1 h
  obtain ⟨d2, h2, h⟩ := Option.bind_eq_some.1 h
  obtain ⟨d3, h3, h⟩ := Option.bind_eq_some.1 h
  obtain ⟨d4, h4, h⟩ := Option.bind_eq_some.1 h
  obtain ⟨d5, h5, h⟩ := Option.bind_eq_some.1 h
  obtain ⟨d6, h6, h⟩ := Option.bind_eq_some.1 h
  obtain ⟨d7, h7, hout⟩ := Option.map_eq_some'.1 h
  obtain ⟨hb1, hl1⟩ := goWrite_bound _ _ _ _ h1
  obtain ⟨hb2, hl2⟩ := goWrite_bound _ _ _ _ h2
  obtain ⟨hb3, hl3⟩ := goCopy_bound _ _ _ _ h3
  obtain ⟨hb4, hl4⟩ := goWrite_bound _ _ _ _ h4
  obtain ⟨hb5, hl5⟩ := goCopy_bound _ _ _ _ h5
  obtain ⟨hb6, hl6⟩ := goWrite_bound _ _ _ _ h6
  obtain ⟨hb7, hl7⟩ := goCopy_bound _ _ _ _ h7
  subst hout
  refine ⟨by omega, ?_, rfl⟩
  show d7.length = data.length
  omega

/-- Feeding PcapInput.Read a buffer of exactly the record length produces
precisely the serialized form of the message and returns that length. -/
lemma pcapRead_exact (m : CapturedMsg) (data : List Nat) (h : data.length = totalLen m) :
    pcapRead m data = some (msgEncode m, totalLen m) := by
  have hge : headerLen m + 1 ≤ data.length := by unfold totalLen at h; omega
  rw [pcapRead_success m data hge]
  have h1 : m.payload.take (data.length - (headerLen m + 1)) = m.payload :=
    List.take_of_length_le (by unfold totalLen at h; omega)
  have h2 : data.drop (totalLen m) = [] := List.drop_of_length_le (by omega)
  rw [h1, h2, List.append_nil]
  rfl

/-- C9: PcapInput.Read requires the caller-supplied buffer to hold at least
header-length + 1 + payload-length bytes: on every shorter buffer it either
performs a fixed-offset write out of range (modelled as none) or silently
truncates the payload while still returning the full untruncated record
length. -/
theorem pcapRead_short_buffer (m : CapturedMsg) (data : List Nat)
    (h : data.length < totalLen m) :
    pcapRead m data = none ∨
      (∃ d, pcapRead m data = some (d, totalLen m) ∧
        d.drop (headerLen m + 1) = m.payload.take (data.length - (headerLen m + 1)) ∧
        data.length - (headerLen m + 1) < m.payload.length) := by
  by_cases hc : headerLen m + 1 ≤ data.length
  · right
    refine ⟨_, pcapRead_success m data hc, ?_, ?_⟩
    · have hnil : data.drop (totalLen m) = [] := List.drop_of_length_le (by omega)
      rw [hnil, List.append_nil]
      rw [show m.kind :: 32 :: (decBytes m.id ++ 32 :: (intBytes m.timing ++ 10 ::
            m.payload.take (data.length - (headerLen m + 1)))) =
          (m.kind :: 32 :: (decBytes m.id ++ 32 :: (intBytes m.timing ++ [10]))) ++
            m.payload.take (data.length - (headerLen m + 1)) from by simp]
      rw [List.drop_left' (by simp [headerLen]; omega)]
    · unfold totalLen at h
      omega
  · left
    cases hp : pcapRead m data with
    | none => rfl
    | some out =>
      obtain ⟨hge, -, -⟩ := pcapRead_some_bound m data out hp
      omega

/-- Witness for C9 at a concrete input: a 3-byte payload, a record length of
9, and an 8-byte buffer. -/
theorem pcapRead_short_buffer_witness :
    (List.replicate 8 0).length < totalLen ⟨0, 0, 49, [1, 2, 3]⟩ ∧
      (pcapRead ⟨0, 0, 49, [1, 2, 3]⟩ (List.replicate 8 0) = none ∨
        (∃ d, pcapRead ⟨0, 0, 49, [1, 2, 3]⟩ (List.replicate 8 0) =
            some (d, totalLen ⟨0, 0, 49, [1, 2, 3]⟩) ∧
          d.drop (headerLen ⟨0, 0, 49, [1, 2, 3]⟩ + 1) =
            (List.take ((List.replicate 8 0).length -
              (headerLen ⟨0, 0, 49, [1, 2, 3]⟩ + 1)) [1, 2, 3]) ∧
          (List.replicate 8 0).length - (headerLen ⟨0, 0, 49, [1, 2, 3]⟩ + 1) <
            ([1, 2, 3] : List Nat).length)) :=
  ⟨by decide, pcapRead_short_buffer ⟨0, 0, 49, [1, 2, 3]⟩ (List.replicate 8 0) (by decide)⟩

/-- A bounded Go channel: its capacity and its currently buffered items. -/
structure BChan (α : Type) where
  cap : Nat
  buf : List α
  deriving DecidableEq

/-- Non-blocking select-send with a default branch: append when the buffer
has room, silently drop the item when the channel is full. -/
def trySend {α : Type} (c : BChan α) (m : α) : BChan α :=
  if c.buf.length < c.cap then { c with buf := c.buf ++ [m] } else c

lemma trySend_room {α : Type} (c : BChan α) (m : α) (h : c.buf.length < c.cap) :
    trySend c m = { c with buf := c.buf ++ [m] } := by
  unfold trySend
  rw [if_pos h]

lemma trySend_full {α : Type} (c : BChan α) (m : α) (h : c.cap ≤ c.buf.length) :
    trySend c m = c := by
  unfold trySend
  rw [if_neg (by omega)]

/-- State of a PcapInput: interface, port, capture-responses flag, the
outbox channel and the pending-request table (the Go map from id to capture
timestamp, represented as an association list whose most recent binding
comes first). -/
structure PcapIn where
  iface : List Char
  port : List Char
  captureResponses : Bool
  out : BChan CapturedMsg
  times : List (Nat × Int)
  deriving DecidableEq

/-- strings.Split(listen, ":"), over the character list. -/
def splitOnColon : List Char → List (List Char)
  | [] => [[]]
  | c :: rest =>
    match splitOnColon rest with
    | [] => [[c]]
    | h :: t => if c = ':' then [] :: h :: t else (c :: h) :: t

/-- NewPcapInput: split the listen address at the colon; a fatal exit (none)
unless it has exactly two parts; otherwise build the input with an outbox
channel of capacity 10000 and an empty pending-request table. -/
def NewPcapInput (listen : List Char) (captureResponses : Bool) : Option PcapIn :=
  match splitOnColon listen with
  | [a, b] => some ⟨a, b, captureResponses, ⟨10000, []⟩, []⟩
  | _ => none

/-- recordMsg: non-blocking send of one captured message to the outbox;
the message is dropped when it is not consumed and the outbox is full. -/
def recordMsg (p : PcapIn) (kind : Nat) (id : Nat) (timing : Int)
    (payload : List Nat) : PcapIn :=
  { p with out := trySend p.out ⟨id, timing, kind, payload⟩ }

/-- C8: the capture outbox is created with capacity 10000, and recordMsg
never blocks: it preserves the capacity, appends the message when the
outbox has room, and leaves the outbox contents unchanged (silent drop)
when the outbox is full. -/
theorem recordMsg_bounded_outbox :
    (∀ listen cr p, NewPcapInput listen cr = some p → p.out.cap = 10000) ∧
    (∀ p kind id timing payload,
      (recordMsg p kind id timing payload).out.cap = p.out.cap ∧
      (p.out.buf.length < p.out.cap →
        (recordMsg p kind id timing payload).out.buf =
          p.out.buf ++ [⟨id, timing, kind, payload⟩]) ∧
      (p.out.cap ≤ p.out.buf.length →
        (recordMsg p kind id timing payload).out.buf = p.out.buf)) := by
  constructor
  · intro listen cr p h
    unfold NewPcapInput at h
    split at h
    · injection h with h
      subst h
      rfl
    · exact Option.noConfusion h
  · intro p kind id timing payload
    refine ⟨?_, ?_, ?_⟩
    · unfold recordMsg trySend
      split <;> rfl
    · intro h
      simp [recordMsg, trySend_room p.out _ h]
    · intro h
      simp [recordMsg, trySend_full p.out _ h]

/-- Witness for C8 at concrete inputs: a freshly created input has outbox
capacity 10000; sending into an outbox with room appends; sending into a
full outbox (capacity 0) leaves it unchanged. -/
theorem recordMsg_bounded_outbox_witness :
    (∃ p, NewPcapInput ['a', ':', 'b'] true = some p ∧ p.out.cap = 10000) ∧
    (recordMsg ⟨['a'], ['b'], true, ⟨10000, []⟩, []⟩ 50 7 5 [9]).out.buf =
      ([] : List CapturedMsg) ++ [⟨7, 5, 50, [9]⟩] ∧
    (recordMsg ⟨['a'], ['b'], true, ⟨0, []⟩, []⟩ 50 7 5 [9]).out.buf = [] := by
  refine ⟨⟨⟨['a'], ['b'], true, ⟨10000, []⟩, []⟩, rfl,
    recordMsg_bounded_outbox.1 ['a', ':', 'b'] true _ rfl⟩, ?_, ?_⟩
  · exact (recordMsg_bounded_outbox.2 ⟨['a'], ['b'], true, ⟨10000, []⟩, []⟩ 50 7 5 [9]).2.1
      (by decide)
  · exact (recordMsg_bounded_outbox.2 ⟨['a'], ['b'], true, ⟨0, []⟩, []⟩ 50 7 5 [9]).2.2
      (by decide)

/-- Go map lookup for the pending-request table. -/
def mapLookup (l : List (Nat × Int)) (k : Nat) : Option Int :=
  match l with
  | [] => none
  | (k', v) :: rest => if k' = k then some v else mapLookup rest k

/-- Go map assignment times[id] = t: bind the key to the new value (the
most recent binding is prepended and shadows any previous one). -/
def mapInsert (l : List (Nat × Int)) (k : Nat) (v : Int) : List (Nat × Int) :=
  (k, v) :: l

/-- One successfully parsed request in readIncomingStream: record the
capture timestamp in the pending-request table under the id, and hand one
request-kind (49) captured message with that timestamp to recordMsg.  First
component: the recordMsg calls made; second: the table afterwards. -/
def handleParsedRequest (times : List (Nat × Int)) (now : Int) (id : Nat)
    (payload : List Nat) : List CapturedMsg × List (Nat × Int) :=
  ([⟨id, now, 49, payload⟩], mapInsert times id now)

/-- One successfully parsed response in readOutgoingStream: look up the
stored request timestamp; when present, hand one response-kind (50)
captured message with timing now − stored to recordMsg; when absent, only
log.  First component: the recordMsg calls made; second: the
pending-request table afterwards (the source never deletes from it). -/
def handleParsedResponse (times : List (Nat × Int)) (now : Int) (id : Nat)
    (payload : List Nat) : List CapturedMsg × List (Nat × Int) :=
  match mapLookup times id with
  | some st => ([⟨id, now - st, 50, payload⟩], times)
  | none => ([], times)

/-- C1 counterexample: a response whose id has a pending entry (id 7 stored
at t=100, now=150) is emitted with timing 50 = now − stored, but the table
entry is still present afterwards — the handler never removes it, refuting
the claim that the matching table entry is removed. -/
theorem response_entry_not_removed :
    handleParsedResponse [(7, 100)] 150 7 [] = ([⟨7, 50, 50, []⟩], [(7, 100)]) ∧
    mapLookup (handleParsedResponse [(7, 100)] 150 7 []).2 7 ≠ none := by
  exact ⟨by decide, by decide⟩

/-- C1 (amended): for every response parsed on an outgoing stream, if the
pending-request table holds an entry for its id, the handler emits (hands
to the drop-on-full outbox) exactly one response-kind captured message
whose timing equals now minus the stored timestamp and leaves the table
unchanged — the entry is not removed; if no entry exists, it emits nothing
and the table is unchanged. -/
theorem response_rtt_emission (times : List (Nat × Int)) (now : Int) (id : Nat)
    (payload : List Nat) :
    (∀ st, mapLookup times id = some st →
      handleParsedResponse times now id payload = ([⟨id, now - st, 50, payload⟩], times)) ∧
    (mapLookup times id = none →
      handleParsedResponse times now id payload = ([], times)) := by
  constructor
  · intro st h
    unfold handleParsedResponse
    rw [h]
  · intro h
    unfold handleParsedResponse
    rw [h]

/-- Witness for the amended C1 at concrete inputs: both the entry-present
and the entry-absent branches. -/
theorem response_rtt_emission_witness :
    handleParsedResponse [(7, 100)] 150 7 [] = ([⟨7, 150 - 100, 50, []⟩], [(7, 100)]) ∧
    handleParsedResponse [] 150 9 [] = ([], []) :=
  ⟨(response_rtt_emission [(7, 100)] 150 7 []).1 100 rfl,
   (response_rtt_emission [] 150 9 []).2 rfl⟩

/-- GorStat: scalar aggregate of queue depth samples (latest, mean, max,
count), as in the source struct. -/
structure GorStat where
  statName : List Char
  latest : Int
  mean : Int
  max : Int
  count : Int
  deriving DecidableEq

/-- GorStat.Write: guarded by the stats setting; raises max when the sample
exceeds it, smooths mean as (mean + latest) / 2 — but only for a non-zero
sample — stores the sample as latest and increments count.  Division is
Go's truncated integer division (Int.tdiv). -/
def gorStatWrite (stats : Bool) (s : GorStat) (latest : Int) : GorStat :=
  if stats then
    { s with
      max := if latest > s.max then latest else s.max,
      mean := if latest ≠ 0 then Int.tdiv (s.mean + latest) 2 else s.mean,
      latest := latest,
      count := s.count + 1 }
  else s

/-- C6 counterexample: with stats enabled and mean 4, writing the sample 0
leaves mean at 4, while the claimed update (mean + v) / 2 would give 2 —
the source guards the mean update with latest ≠ 0. -/
theorem gorStat_mean_skips_zero :
    (gorStatWrite true ⟨['q'], 1, 4, 5, 7⟩ 0).mean = 4 ∧
    Int.tdiv ((⟨['q'], 1, 4, 5, 7⟩ : GorStat).mean + 0) 2 = 2 ∧ (4 : Int) ≠ 2 := by
  decide

/-- C6 (amended): with stats enabled, Write(v) sets max to v exactly when
v > max, sets latest to v, increments count by 1, and updates mean to
(mean + v) / 2 only when v ≠ 0; a zero sample leaves mean unchanged. -/
theorem gorStatWrite_fields (s : GorStat) (v : Int) :
    (gorStatWrite true s v).max = (if v > s.max then v else s.max) ∧
    (gorStatWrite true s v).latest = v ∧
    (gorStatWrite true s v).count = s.count + 1 ∧
    (v ≠ 0 → (gorStatWrite true s v).mean = Int.tdiv (s.mean + v) 2) ∧
    (v = 0 → (gorStatWrite true s v).mean = s.mean) := by
  unfold gorStatWrite
  refine ⟨by simp, by simp, by simp, ?_, ?_⟩
  · intro h
    simp [h]
  · intro h
    simp [h]

/-- Witness for the amended C6 at concrete inputs: a non-zero sample
updates the mean, a zero sample leaves it alone. -/
theorem gorStatWrite_fields_witness :
    (gorStatWrite true ⟨['q'], 1, 4, 3, 7⟩ 6).mean = Int.tdiv (4 + 6) 2 ∧
    (gorStatWrite true ⟨['q'], 1, 4, 3, 7⟩ 0).mean = 4 :=
  ⟨(gorStatWrite_fields ⟨['q'], 1, 4, 3, 7⟩ 6).2.2.2.1 (by decide),
   (gorStatWrite_fields ⟨['q'], 1, 4, 3, 7⟩ 0).2.2.2.2 rfl⟩

/-- HTTP output configuration: the fields Write and the workers touch. -/
structure HTTPOutputConfig where
  stats : Bool
  workers : Nat
  deriving DecidableEq

/-- HTTPOutput: the active-worker counter, replay target address, bounded
request queue (capacity 100 in NewHTTPOutput), the needWorker channel
(capacity 1) and the queue statistics. -/
structure HTTPOutput where
  activeWorkers : Int
  address : List Char
  queue : BChan (List Nat)
  needWorker : BChan Nat
  config : HTTPOutputConfig
  queueStats : GorStat
  deriving DecidableEq

/-- A blocking Go channel send: completes (some) only when the channel
buffer has room; a send on a full channel blocks, modelled as none. -/
def blockingSend {α : Type} (c : BChan α) (m : α) : Option (BChan α) :=
  if c.buf.length < c.cap then some { c with buf := c.buf ++ [m] } else none

/-- HTTPOutput.Write: copy the caller's bytes, enqueue the copy on the
bounded queue (blocking when full), update the queue stats when enabled,
in dynamic mode request more workers when the queue depth exceeds the
active-worker count (another blocking send), and return (len(data), nil). -/
def httpOutputWrite (settingsStats : Bool) (o : HTTPOutput) (data : List Nat) :
    Option (HTTPOutput × Nat × Option (List Char)) :=
  (blockingSend o.queue data).bind fun q1 =>
  (if o.config.stats then
      some { o with
        queue := q1
        queueStats := gorStatWrite settingsStats o.queueStats (q1.buf.length : Int) }
    else some { o with queue := q1 }).bind fun o2 =>
  if o2.config.workers = 0 then
    if (q1.buf.length : Int) > o2.activeWorkers then
      (blockingSend o2.needWorker q1.buf.length).map fun nw =>
        ({ o2 with needWorker := nw }, data.length, none)
    else some (o2, data.length, none)
  else some (o2, data.length, none)

/-- C3: whenever HTTPOutput.Write completes, it has appended the caller's
bytes to the bounded queue and returns exactly the input length together
with a nil error: it never reports an error and never truncates. -/
theorem httpOutputWrite_full_length (settingsStats : Bool) (o : HTTPOutput)
    (data : List Nat) (o' : HTTPOutput) (n : Nat) (e : Option (List Char))
    (h : httpOutputWrite settingsStats o data = some (o', n, e)) :
    n = data.length ∧ e = none ∧ o'.queue.buf = o.queue.buf ++ [data] := by
  unfold httpOutputWrite at h
  obtain ⟨q1, hq, h⟩ := Option.bind_eq_some.1 h
  obtain ⟨hq1, -⟩ : q1.buf = o.queue.buf ++ [data] ∧ q1.cap = o.queue.cap := by
    unfold blockingSend at hq
    split at hq
    · injection hq with hq
      subst hq
      exact ⟨rfl, rfl⟩
    · exact Option.noConfusion hq
  obtain ⟨o2, ho2, h⟩ := Option.bind_eq_some.1 h
  have hq2 : o2.queue = q1 := by
    split at ho2 <;> (injection ho2 with ho2; subst ho2; rfl)
  split at h
  · split at h
    · obtain ⟨nw, -, hpair⟩ := Option.map_eq_some'.1 h
      injection hpair with h1 h23
      injection h23 with h2 h3
      subst h1
      refine ⟨h2.symm, h3.symm, ?_⟩
      show o2.queue.buf = _
      rw [hq2, hq1]
    · injection h with h
      injection h with h1 h23
      injection h23 with h2 h3
      subst h1
      exact ⟨h2.symm, h3.symm, by rw [hq2, hq1]⟩
  · injection h with h
    injection h with h1 h23
    injection h23 with h2 h3
    subst h1
    exact ⟨h2.symm, h3.symm, by rw [hq2, hq1]⟩

/-- Witness for C3 at a concrete call: a fixed-size pool with room in the
queue; the call returns length 2 with a nil error and the queue grew by the
copied record. -/
theorem httpOutputWrite_full_length_witness :
    (2 : Nat) = ([1, 2] : List Nat).length ∧ (none : Option (List Char)) = none ∧
    (⟨0, [], ⟨100, [[1, 2]]⟩, ⟨1, []⟩, ⟨false, 1⟩, ⟨[], 0, 0, 0, 0⟩⟩ : HTTPOutput).queue.buf =
      (⟨0, [], ⟨100, []⟩, ⟨1, []⟩, ⟨false, 1⟩, ⟨[], 0, 0, 0, 0⟩⟩ : HTTPOutput).queue.buf
        ++ [[1, 2]] :=
  httpOutputWrite_full_length false ⟨0, [], ⟨100, []⟩, ⟨1, []⟩, ⟨false, 1⟩, ⟨[], 0, 0, 0, 0⟩⟩
    [1, 2] ⟨0, [], ⟨100, [[1, 2]]⟩, ⟨1, []⟩, ⟨false, 1⟩, ⟨[], 0, 0, 0, 0⟩⟩ 2 none (by decide)

/-- Modelled from the spec: proto.Status (the proto package is not part of
the sources here) — the status token of the response's status line: the
bytes after the first SP of the first line, up to the next SP or the end of
the line; empty when the response carries no such token. -/
def protoStatus (resp : List Nat) : List Nat :=
  (((resp.takeWhile (fun b => !(b == 13) && !(b == 10))).dropWhile
    (fun b => !(b == 32))).drop 1).takeWhile (fun b => !(b == 32))

/-- isErr: a non-nil error short-circuits to true; otherwise the first byte
of the extracted status is compared with '5' (53).  Indexing an empty
status slice is a panic, modelled as none. -/
def isErr (errNonNil : Bool) (resp : List Nat) : Option Bool :=
  if errNonNil then some true
  else
    match protoStatus resp with
    | [] => none
    | b :: _ => some (b == 53)

/-- Modelled from the spec: proto.MIMEHeadersEndPos (the proto package is
not part of the sources here) — the index of the first CRLF CRLF. -/
def findHeadersEnd : List Nat → Option Nat
  | 13 :: 10 :: 13 :: 10 :: _ => some 0
  | _ :: rest => (findHeadersEnd rest).map (· + 1)
  | [] => none

/-- Modelled from the spec: the position immediately past the blank line
terminating the headers; when no blank line occurs the whole response is
treated as headers. -/
def mimeHeadersEndPos (resp : List Nat) : Nat :=
  match findHeadersEnd resp with
  | some i => i + 4
  | none => resp.length

/-- The metrics the differential analyzer touches: counters diffing.total,
diffing.err.a, diffing.err.b, diffing.match, diffing.diff and the two
latency timers. -/
structure DiffCounters where
  total : Nat
  errA : Nat
  errB : Nat
  matched : Nat
  diffed : Nat
  rttA : List Int
  rttB : List Int
  deriving DecidableEq

/-- DiffReporter state: the process-wide diff ordinal, the ignoreErrors
flag, and the optional diverging-request sink with its bounded queue. -/
structure DiffReporter where
  totalDiffs : Int
  ignoreErrors : Bool
  hasWriter : Bool
  outQueue : BChan (List Nat)
  deriving DecidableEq

/-- Side-A classification bookkeeping: count the error or record the RTT. -/
def countA (c : DiffCounters) (ea : Bool) (rtt : Int) : DiffCounters :=
  if ea then { c with errA := c.errA + 1 } else { c with rttA := c.rttA ++ [rtt] }

/-- Side-B classification bookkeeping: count the error or record the RTT. -/
def countB (c : DiffCounters) (eb : Bool) (rtt : Int) : DiffCounters :=
  if eb then { c with errB := c.errB + 1 } else { c with rttB := c.rttB ++ [rtt] }

/-- The counter state every completed analyzer call reaches before the
skip/match/diff decision: total incremented, then per-side error or RTT
bookkeeping. -/
def preCounters (c : DiffCounters) (ea eb : Bool) (rttA rttB : Int) : DiffCounters :=
  countB (countA { c with total := c.total + 1 } ea rttA) eb rttB

/-- DiffReporter.ResponseAnalyze: increment diffing.total, classify both
sides with isErr (a panic inside isErr propagates as none), count errors or
record latencies, then: skip when both sides errored or ignoreErrors is set
and either side errored; match when the bytes past the header terminator
are equal; otherwise diff — bump the diff ordinal and, when a sink is
configured, enqueue the request on its bounded channel (blocking; none when
full).  The shadow response, its error and its RTT are inputs because
client.Send is external I/O. -/
def responseAnalyze (d : DiffReporter) (req respA : List Nat) (rttA : Int)
    (rawErrA : Bool) (respB : List Nat) (rttB : Int) (rawErrB : Bool)
    (c : DiffCounters) : Option (DiffCounters × DiffReporter) :=
  (isErr rawErrA respA).bind fun ea =>
  (isErr rawErrB respB).bind fun eb =>
  if (ea && eb) || (d.ignoreErrors && (ea || eb)) then
    some (preCounters c ea eb rttA rttB, d)
  else if respA.drop (mimeHeadersEndPos respA) = respB.drop (mimeHeadersEndPos respB) then
    some ({ preCounters c ea eb rttA rttB with
      matched := (preCounters c ea eb rttA rttB).matched + 1 }, d)
  else if d.hasWriter then
    (blockingSend d.outQueue req).map fun q =>
      ({ preCounters c ea eb rttA rttB with
        diffed := (preCounters c ea eb rttA rttB).diffed + 1 },
       { d with totalDiffs := d.totalDiffs + 1, outQueue := q })
  else
    some ({ preCounters c ea eb rttA rttB with
      diffed := (preCounters c ea eb rttA rttB).diffed + 1 },
     { d with totalDiffs := d.totalDiffs + 1 })

lemma preCounters_total (c : DiffCounters) (ea eb : Bool) (a b : Int) :
    (preCounters c ea eb a b).total = c.total + 1 := by
  unfold preCounters countA countB
  cases ea <;> cases eb <;> simp

lemma preCounters_matched (c : DiffCounters) (ea eb : Bool) (a b : Int) :
    (preCounters c ea eb a b).matched = c.matched := by
  unfold preCounters countA countB
  cases ea <;> cases eb <;> simp

lemma preCounters_diffed (c : DiffCounters) (ea eb : Bool) (a b : Int) :
    (preCounters c ea eb a b).diffed = c.diffed := by
  unfold preCounters countA countB
  cases ea <;> cases eb <;> simp

/-- C4: whenever the differential analyzer completes a call, diffing.total
increments by exactly one and exactly one of the outcomes {skip, match,
diff} occurs: the skip condition held and neither match nor diff moved, or
match incremented and diff did not, or diff incremented and match did not —
so matches plus diffs plus skipped calls sum to diffing.total. -/
theorem responseAnalyze_total_outcome (d : DiffReporter) (req respA : List Nat)
    (rttA : Int) (rawErrA : Bool) (respB : List Nat) (rttB : Int) (rawErrB : Bool)
    (c c' : DiffCounters) (d' : DiffReporter) (ea eb : Bool)
    (hA : isErr rawErrA respA = some ea) (hB : isErr rawErrB respB = some eb)
    (h : responseAnalyze d req respA rttA rawErrA respB rttB rawErrB c = some (c', d')) :
    c'.total = c.total + 1 ∧
    ((((ea && eb) || (d.ignoreErrors && (ea || eb))) = true ∧
        c'.matched = c.matched ∧ c'.diffed = c.diffed) ∨
      (((ea && eb) || (d.ignoreErrors && (ea || eb))) = false ∧
        c'.matched = c.matched + 1 ∧ c'.diffed = c.diffed) ∨
      (((ea && eb) || (d.ignoreErrors && (ea || eb))) = false ∧
        c'.matched = c.matched ∧ c'.diffed = c.diffed + 1)) := by
  unfold responseAnalyze at h
  rw [hA] at h
  simp only [Option.some_bind] at h
  rw [hB] at h
  simp only [Option.some_bind] at h
  split at h
  · simp only [Option.some.injEq, Prod.mk.injEq] at h
    obtain ⟨h1, h2⟩ := h
    subst h1
    subst h2
    refine ⟨preCounters_total c ea eb rttA rttB, Or.inl ⟨by assumption, ?_, ?_⟩⟩
    · exact preCounters_matched c ea eb rttA rttB
    · exact preCounters_diffed c ea eb rttA rttB
  · rename_i hskip
    have hskip' : ((ea && eb) || (d.ignoreErrors && (ea || eb))) = false := by
      simpa using hskip
    split at h
    · simp only [Option.some.injEq, Prod.mk.injEq] at h
      obtain ⟨h1, h2⟩ := h
      subst h1
      subst h2
      refine ⟨?_, Or.inr (Or.inl ⟨hskip', ?_, ?_⟩)⟩
      · show (preCounters c ea eb rttA rttB).total = c.total + 1
        exact preCounters_total c ea eb rttA rttB
      · show (preCounters c ea eb rttA rttB).matched + 1 = c.matched + 1
        rw [preCounters_matched c ea eb rttA rttB]
      · show (preCounters c ea eb rttA rttB).diffed = c.diffed
        exact preCounters_diffed c ea eb rttA rttB
    · split at h
      · obtain ⟨q, -, hpair⟩ := Option.map_eq_some'.1 h
        injection hpair with h1 h2
        subst h1
        refine ⟨preCounters_total c ea eb rttA rttB, Or.inr (Or.inr ⟨hskip', ?_, ?_⟩)⟩
        · exact preCounters_matched c ea eb rttA rttB
        · show (preCounters c ea eb rttA rttB).diffed + 1 = c.diffed + 1
          rw [preCounters_diffed c ea eb rttA rttB]
      · simp only [Option.some.injEq, Prod.mk.injEq] at h
        obtain ⟨h1, h2⟩ := h
        subst h1
        subst h2
        refine ⟨preCounters_total c ea eb rttA rttB, Or.inr (Or.inr ⟨hskip', ?_, ?_⟩)⟩
        · exact preCounters_matched c ea eb rttA rttB
        · show (preCounters c ea eb rttA rttB).diffed + 1 = c.diffed + 1
          rw [preCounters_diffed c ea eb rttA rttB]

/-- C5: for every completed, non-skipped analyzer call, the pair is
classified as a match (diffing.match incremented, no diff emitted) if and
only if the responses' bytes from the position immediately past the blank
line terminating the headers are equal — differing header bytes alone never
produce a diff. -/
theorem responseAnalyze_match_iff_bodies (d : DiffReporter) (req respA : List Nat)
    (rttA : Int) (rawErrA : Bool) (respB : List Nat) (rttB : Int) (rawErrB : Bool)
    (c c' : DiffCounters) (d' : DiffReporter) (ea eb : Bool)
    (hA : isErr rawErrA respA = some ea) (hB : isErr rawErrB respB = some eb)
    (hskip : ((ea && eb) || (d.ignoreErrors && (ea || eb))) = false)
    (h : responseAnalyze d req respA rttA rawErrA respB rttB rawErrB c = some (c', d')) :
    (c'.matched = c.matched + 1 ∧ c'.diffed = c.diffed) ↔
      respA.drop (mimeHeadersEndPos respA) = respB.drop (mimeHeadersEndPos respB) := by
  unfold responseAnalyze at h
  rw [hA] at h
  simp only [Option.some_bind] at h
  rw [hB] at h
  simp only [Option.some_bind] at h
  rw [if_neg (by simp [hskip])] at h
  by_cases hb : respA.drop (mimeHeadersEndPos respA) = respB.drop (mimeHeadersEndPos respB)
  · rw [if_pos hb] at h
    simp only [Option.some.injEq, Prod.mk.injEq] at h
    obtain ⟨h1, h2⟩ := h
    subst h1
    refine iff_of_true ⟨?_, ?_⟩ hb
    · show (preCounters c ea eb rttA rttB).matched + 1 = c.matched + 1
      rw [preCounters_matched]
    · show (preCounters c ea eb rttA rttB).diffed = c.diffed
      exact preCounters_diffed c ea eb rttA rttB
  · rw [if_neg hb] at h
    refine iff_of_false ?_ hb
    split at h
    · obtain ⟨q, -, hpair⟩ := Option.map_eq_some'.1 h
      injection hpair with h1 h2
      subst h1
      rintro ⟨hm, -⟩
      have hm' : (preCounters c ea eb rttA rttB).matched = c.matched + 1 := hm
      rw [preCounters_matched] at hm'
      omega
    · simp only [Option.some.injEq, Prod.mk.injEq] at h
      obtain ⟨h1, h2⟩ := h
      subst h1
      rintro ⟨hm, -⟩
      have hm' : (preCounters c ea eb rttA rttB).matched = c.matched + 1 := hm
      rw [preCounters_matched] at hm'
      omega

/-- Witness for C4 at a concrete call: both sides healthy 200 responses
with differing headers and equal bodies; total goes from 0 to 1 and the
match outcome holds exclusively. -/
theorem responseAnalyze_total_outcome_witness :
    (⟨1, 0, 0, 1, 0, [5], [7]⟩ : DiffCounters).total =
      (⟨0, 0, 0, 0, 0, [], []⟩ : DiffCounters).total + 1 ∧
    ((((false && false) ||
        ((⟨0, false, false, ⟨100, []⟩⟩ : DiffReporter).ignoreErrors && (false || false))) = true ∧
        (⟨1, 0, 0, 1, 0, [5], [7]⟩ : DiffCounters).matched =
          (⟨0, 0, 0, 0, 0, [], []⟩ : DiffCounters).matched ∧
        (⟨1, 0, 0, 1, 0, [5], [7]⟩ : DiffCounters).diffed =
          (⟨0, 0, 0, 0, 0, [], []⟩ : DiffCounters).diffed) ∨
      (((false && false) ||
        ((⟨0, false, false, ⟨100, []⟩⟩ : DiffReporter).ignoreErrors && (false || false))) = false ∧
        (⟨1, 0, 0, 1, 0, [5], [7]⟩ : DiffCounters).matched =
          (⟨0, 0, 0, 0, 0, [], []⟩ : DiffCounters).matched + 1 ∧
        (⟨1, 0, 0, 1, 0, [5], [7]⟩ : DiffCounters).diffed =
          (⟨0, 0, 0, 0, 0, [], []⟩ : DiffCounters).diffed) ∨
      (((false && false) ||
        ((⟨0, false, false, ⟨100, []⟩⟩ : DiffReporter).ignoreErrors && (false || false))) = false ∧
        (⟨1, 0, 0, 1, 0, [5], [7]⟩ : DiffCounters).matched =
          (⟨0, 0, 0, 0, 0, [], []⟩ : DiffCounters).matched ∧
        (⟨1, 0, 0, 1, 0, [5], [7]⟩ : DiffCounters).diffed =
          (⟨0, 0, 0, 0, 0, [], []⟩ : DiffCounters).diffed + 1)) :=
  responseAnalyze_total_outcome ⟨0, false, false, ⟨100, []⟩⟩ [71]
    [65, 32, 50, 48, 48, 13, 10, 13, 10, 88] 5 false
    [66, 32, 50, 48, 48, 13, 10, 13, 10, 88] 7 false
    ⟨0, 0, 0, 0, 0, [], []⟩ ⟨1, 0, 0, 1, 0, [5], [7]⟩ ⟨0, false, false, ⟨100, []⟩⟩
    false false (by decide) (by decide) (by decide)

/-- Witness for C5 at a concrete call: headers differ ('A' vs 'B' status
lines), bodies are both "X"; the call is a match and the iff holds. -/
theorem responseAnalyze_match_iff_bodies_witness :
    ((⟨1, 0, 0, 1, 0, [5], [7]⟩ : DiffCounters).matched =
        (⟨0, 0, 0, 0, 0, [], []⟩ : DiffCounters).matched + 1 ∧
      (⟨1, 0, 0, 1, 0, [5], [7]⟩ : DiffCounters).diffed =
        (⟨0, 0, 0, 0, 0, [], []⟩ : DiffCounters).diffed) ↔
      List.drop (mimeHeadersEndPos [65, 32, 50, 48, 48, 13, 10, 13, 10, 88])
          [65, 32, 50, 48, 48, 13, 10, 13, 10, 88] =
        List.drop (mimeHeadersEndPos [66, 32, 50, 48, 48, 13, 10, 13, 10, 88])
          [66, 32, 50, 48, 48, 13, 10, 13, 10, 88] :=
  responseAnalyze_match_iff_bodies ⟨0, false, false, ⟨100, []⟩⟩ [71]
    [65, 32, 50, 48, 48, 13, 10, 13, 10, 88] 5 false
    [66, 32, 50, 48, 48, 13, 10, 13, 10, 88] 7 false
    ⟨0, 0, 0, 0, 0, [], []⟩ ⟨1, 0, 0, 1, 0, [5], [7]⟩ ⟨0, false, false, ⟨100, []⟩⟩
    false false (by decide) (by decide) (by decide) (by decide)

/-- C10: isErr dereferences the first byte of the extracted status whenever
err is nil: with err nil and an empty status the classification is an
out-of-range index (none) rather than a defined verdict, and isErr is total
whenever the status is non-empty. -/
theorem isErr_empty_status_panics :
    (∀ resp, protoStatus resp = [] → isErr false resp = none) ∧
    (∀ e resp, protoStatus resp ≠ [] → (isErr e resp).isSome = true) := by
  constructor
  · intro resp h
    simp [isErr, h]
  · intro e resp h
    rcases hs : protoStatus resp with _ | ⟨b, t⟩
    · exact absurd hs h
    · cases e <;> simp [isErr, hs]

/-- Witness for C10 at concrete inputs: the empty response has an empty
status and isErr false panics (none); a well-formed 500 status line gives a
defined verdict. -/
theorem isErr_empty_status_panics_witness :
    isErr false [] = none ∧
    (isErr false [72, 84, 84, 80, 32, 53, 48, 48, 13, 10]).isSome = true :=
  ⟨isErr_empty_status_panics.1 [] rfl,
   isErr_empty_status_panics.2 false [72, 84, 84, 80, 32, 53, 48, 48, 13, 10] (by decide)⟩

/-- A dynamic worker's local state in startWorker: its deathCount, and —
between the atomic load of activeWorkers and the atomic decrement — the
counter value it loaded (none while normally looping). -/
structure Worker where
  deathCount : Nat
  loaded : Option Int
  deriving DecidableEq

/-- The worker-pool state: the atomic activeWorkers counter and the live
workers (dynamic scaling, config.workers = 0). -/
structure PoolState where
  counter : Int
  workers : List Worker
  deriving DecidableEq

/-- startWorker begins: atomically increment activeWorkers, enter the loop
with deathCount 0. -/
def applySpawn (s : PoolState) : PoolState :=
  ⟨s.counter + 1, s.workers ++ [⟨0, none⟩]⟩

/-- A worker dequeues a request from the queue: deathCount resets to 0. -/
def applyDequeue (s : PoolState) (i : Nat) : PoolState :=
  ⟨s.counter, s.workers.set i ⟨0, none⟩⟩

/-- The 100 ms timeout fires and the incremented deathCount is still at
most 20: only the local counter moves. -/
def applyTimeoutLow (s : PoolState) (i : Nat) (w : Worker) : PoolState :=
  ⟨s.counter, s.workers.set i ⟨w.deathCount + 1, none⟩⟩

/-- The timeout fires, deathCount goes past 20, and the worker atomically
loads activeWorkers — the decision value for retirement. -/
def applyTimeoutHigh (s : PoolState) (i : Nat) (w : Worker) : PoolState :=
  ⟨s.counter, s.workers.set i ⟨w.deathCount + 1, some s.counter⟩⟩

/-- The worker saw a loaded value different from 1: atomically decrement
activeWorkers and exit. -/
def applyRetire (s : PoolState) (i : Nat) : PoolState :=
  ⟨s.counter - 1, s.workers.eraseIdx i⟩

/-- The worker saw exactly 1: it stays alive and keeps looping. -/
def applyKeep (s : PoolState) (i : Nat) (w : Worker) : PoolState :=
  ⟨s.counter, s.workers.set i ⟨w.deathCount, none⟩⟩

/-- One legal interleaving step of the dynamic pool: a spawn, or one
worker's next action — dequeue, timeout (staying low or crossing 20 and
loading the counter), then retire when the loaded value is ≠ 1 or continue
when it is 1. -/
def workerStep (s t : PoolState) : Bool :=
  (t == applySpawn s) ||
  (List.range s.workers.length).any (fun i =>
    match s.workers[i]? with
    | none => false
    | some w =>
      match w.loaded with
      | none =>
        (t == applyDequeue s i) ||
        (decide (w.deathCount + 1 ≤ 20) && (t == applyTimeoutLow s i w)) ||
        (decide (20 < w.deathCount + 1) && (t == applyTimeoutHigh s i w))
      | some v =>
        (!(v == 1) && (t == applyRetire s i)) ||
        ((v == 1) && (t == applyKeep s i w)))

/-- The pool's small-step relation. -/
def poolStep (s t : PoolState) : Prop := workerStep s t = true

/-- chainValid a l: each consecutive pair along a :: l is a legal step. -/
def chainValid : PoolState → List PoolState → Bool
  | _, [] => true
  | a, b :: l => workerStep a b && chainValid b l

lemma chainValid_sound (l : List PoolState) : ∀ a : PoolState,
    chainValid a l = true → Relation.ReflTransGen poolStep a (l.getLastD a) := by
  induction l with
  | nil =>
    intro a _
    exact Relation.ReflTransGen.refl
  | cons b t ih =>
    intro a h
    unfold chainValid at h
    obtain ⟨h1, h2⟩ := (Bool.and_eq_true _ _).mp h
    rw [List.getLastD_cons]
    exact Relation.ReflTransGen.head h1 (ih b h2)

/-- The interleaving in which worker 0 idles past 20 timeouts and loads
activeWorkers = 2, then worker 1 does the same, and only then do both
perform their decrement-and-exit. -/
def retireTail : List PoolState :=
  (List.range 20).map (fun k => ⟨2, [⟨k + 1, none⟩, ⟨0, none⟩]⟩) ++
  [⟨2, [⟨21, some 2⟩, ⟨0, none⟩]⟩] ++
  (List.range 20).map (fun k => ⟨2, [⟨21, some 2⟩, ⟨k + 1, none⟩]⟩) ++
  [⟨2, [⟨21, some 2⟩, ⟨21, some 2⟩]⟩, ⟨1, [⟨21, some 2⟩]⟩, ⟨0, []⟩]

/-- C2: the minimum-one-worker guarantee fails on a legal interleaving.
From pool creation (counter 0, no workers) two workers start (counter 2);
both idle past 20 timeouts and both load activeWorkers = 2 before either
decrements, so both pass the ≠ 1 check, both retire, and the pool reaches
counter 0 with no live workers — the last worker retires, contradicting the
claim and the source's own comment that at least one startWorker should
stay alive. -/
theorem activeWorkers_reach_zero :
    Relation.ReflTransGen poolStep ⟨0, []⟩ ⟨2, [⟨0, none⟩, ⟨0, none⟩]⟩ ∧
    Relation.ReflTransGen poolStep ⟨2, [⟨0, none⟩, ⟨0, none⟩]⟩ ⟨0, []⟩ := by
  constructor
  · exact chainValid_sound [⟨1, [⟨0, none⟩]⟩, ⟨2, [⟨0, none⟩, ⟨0, none⟩]⟩] ⟨0, []⟩ (by decide)
  · exact chainValid_sound retireTail ⟨2, [⟨0, none⟩, ⟨0, none⟩]⟩ (by decide)
